import Mathlib

/-!
Shallow embedding of `src/sociallistening.py` (response validation/normalization,
retry wrapper, message trimming, and defensive JSON extraction), together with
proofs of the specified properties.

Modelling conventions:
- Python strings are `List Char` (Python `len`/slicing count code points).
- Python floats are `PFloat`: either a rational value or one of the special
  values `nan`, `inf`, `-inf`.  The program performs no float arithmetic on
  these fields (only parsing, comparison and clamping), so rational values
  model the reachable behaviour; `nan`/`inf` are kept because they flow
  through the comparisons in `_to_float_clamped` in a way rationals cannot
  express.
- Python values parsed from JSON are `PyVal` (None, bool, int, float, str,
  list, dict with string keys — exactly the shapes `json.loads` can return).
- Code that can raise returns `Except String α`; the string names the Python
  exception.
-/

/-- Python whitespace for `str.strip` (ASCII whitespace characters). -/
def pyIsSpace (c : Char) : Bool :=
  c = ' ' || c = '\t' || c = '\n' || c = '\r' || c = Char.ofNat 11 || c = Char.ofNat 12

/-- `str.lstrip()`. -/
def pyLstrip (s : List Char) : List Char := s.dropWhile pyIsSpace

/-- `str.rstrip()`. -/
def pyRstrip (s : List Char) : List Char := (s.reverse.dropWhile pyIsSpace).reverse

/-- `str.strip()`. -/
def pyStrip (s : List Char) : List Char := pyRstrip (pyLstrip s)

/-- The `…` character appended by the truncation helpers. -/
def ellipsisChar : Char := '…'

/-- `{` (written via its code point to keep it out of literals). -/
def lbraceC : Char := Char.ofNat 123

/-- `}` (written via its code point). -/
def rbraceC : Char := Char.ofNat 125

/-- A Python float value: a rational, or one of the IEEE special values the
program can actually meet (`float('nan')`, `float('inf')`, `float('-inf')`). -/
inductive PFloat where
  | nan
  | inf
  | ninf
  | rat (q : ℚ)
  deriving DecidableEq, Repr

/-- Python `<` on floats: `nan` compares false against everything. -/
def PFloat.lt : PFloat → PFloat → Bool
  | .nan, _ => false
  | _, .nan => false
  | .ninf, .ninf => false
  | .ninf, _ => true
  | _, .ninf => false
  | .inf, _ => false
  | .rat _, .inf => true
  | .rat a, .rat b => decide (a < b)

/-- A Python value of the shapes `json.loads` can produce. -/
inductive PyVal where
  | none
  | bool (b : Bool)
  | int (n : ℤ)
  | float (f : PFloat)
  | str (s : List Char)
  | list (xs : List PyVal)
  | dict (kvs : List (List Char × PyVal))

/-- Association-list lookup, modelling Python `dict.__getitem__`/`get` on the
string-keyed dicts produced by `json.loads` (first match; json object keys are
unique). -/
def alookup {β : Type} : List (List Char × β) → List Char → Option β
  | [], _ => Option.none
  | (k, v) :: tl, key => if k = key then some v else alookup tl key

/-- `dict.get(key, default)`. -/
def lookupD (kvs : List (List Char × PyVal)) (key : List Char) (dflt : PyVal) : PyVal :=
  (alookup kvs key).getD dflt

/-- Decimal digits of a natural number (for Python `str(int)`). -/
def natDigits (n : Nat) : List Char := Nat.toDigits 10 n

/-- Python `str(int)`. -/
def intStr (n : ℤ) : List Char :=
  if n < 0 then '-' :: natDigits (-n).toNat else natDigits n.toNat

/-- Fractional decimal digits of `num/den` by long division, `fuel` digits at
most (helper for `str(float)`). -/
def fracDigitsAux : Nat → Nat → Nat → List Char
  | 0, _, _ => []
  | _ + 1, 0, _ => []
  | fuel + 1, num, den =>
    let d := num * 10 / den
    let r := num * 10 % den
    (Char.ofNat ('0'.toNat + d)) :: fracDigitsAux fuel r den

/-- Python `str(float)` (decimal rendering; exactness of the digit string is
not load-bearing for any claim). -/
def pfRepr : PFloat → List Char
  | .nan => "nan".data
  | .inf => "inf".data
  | .ninf => "-inf".data
  | .rat q =>
    let sign : List Char := if q < 0 then ['-'] else []
    let a : ℤ := if q < 0 then -q.num else q.num
    let ip : Nat := a.toNat / q.den
    let rem : Nat := a.toNat % q.den
    let frac := (fracDigitsAux 40 rem q.den).reverse.dropWhile (· = '0') |>.reverse
    sign ++ natDigits ip ++ ['.'] ++ (if frac = [] then ['0'] else frac)

/-- Python `repr` of a JSON-shaped value (`str` uses it for container
elements; string quoting/escaping is simplified to surrounding quotes). -/
def pyRepr : PyVal → List Char
  | .none => "None".data
  | .bool b => if b then "True".data else "False".data
  | .int n => intStr n
  | .float f => pfRepr f
  | .str s => '\'' :: s ++ ['\'']
  | .list xs =>
    '[' :: (List.intercalate ", ".data (xs.attach.map (fun v => pyRepr v.1))) ++ [']']
  | .dict kvs =>
    lbraceC ::
      (List.intercalate ", ".data
        (kvs.attach.map (fun kv => '\'' :: kv.1.1 ++ "': ".data ++ pyRepr kv.1.2)))
      ++ [rbraceC]
decreasing_by
  all_goals simp_wf
  · have h1 := List.sizeOf_lt_of_mem v.2
    omega
  · have h1 := List.sizeOf_lt_of_mem kv.2
    have h2 : sizeOf kv.1.2 < sizeOf kv.1 := by
      obtain ⟨⟨a, b⟩, hm⟩ := kv
      simp
    omega

/-- Python `str(x)`. -/
def pyStr (v : PyVal) : List Char :=
  match v with
  | .str s => s
  | v => pyRepr v

/-- ASCII lower-casing (Python `float(str)` accepts `nan`/`inf` in any case). -/
def asciiLower (c : Char) : Char :=
  if 'A' ≤ c && c ≤ 'Z' then Char.ofNat (c.toNat + 32) else c

/-- Numeric value of a digit character. -/
def digToNat (c : Char) : Nat := c.toNat - '0'.toNat

/-- Value of a list of decimal digit characters. -/
def digitsVal (ds : List Char) : Nat := ds.foldl (fun a c => a * 10 + digToNat c) 0

/-- Parse the part of a float string after an `e`/`E`: optional sign and a
nonempty digit run, yielding the scaling applied to the mantissa. -/
def parseExpPart (mantNum : ℤ) (mantDen : ℕ) (t : List Char) : Option ℚ :=
  let (eneg, r) := match t with
    | '-' :: r => (true, r)
    | '+' :: r => (false, r)
    | r => (false, r)
  let ed := r.takeWhile Char.isDigit
  let rest := r.dropWhile Char.isDigit
  if ed = [] ∨ rest ≠ [] then Option.none
  else
    let e := digitsVal ed
    if eneg then some (mkRat mantNum (mantDen * 10 ^ e))
    else some (mkRat (mantNum * (10 : ℤ) ^ e) mantDen)

/-- Parse an unsigned decimal float body: `digits [. digits] [e…]`, at least
one digit in the mantissa, nothing left over. -/
def parseUnsignedFloat (t : List Char) : Option ℚ :=
  let ip := t.takeWhile Char.isDigit
  let r1 := t.dropWhile Char.isDigit
  let (fp, r2) := match r1 with
    | '.' :: rr => (rr.takeWhile Char.isDigit, rr.dropWhile Char.isDigit)
    | _ => (([] : List Char), r1)
  if ip = [] ∧ fp = [] then Option.none
  else
    let k := fp.length
    let mantNum : ℤ := (digitsVal ip * 10 ^ k + digitsVal fp : ℕ)
    let mantDen : ℕ := 10 ^ k
    match r2 with
    | [] => some (mkRat mantNum mantDen)
    | 'e' :: r3 => parseExpPart mantNum mantDen r3
    | _ => Option.none

/-- Python `float(str)`: strip whitespace, optional sign, `nan`/`inf`/
`infinity` (case-insensitive), or a decimal number. `Option.none` models a
`ValueError`. -/
def parsePyFloat (s : List Char) : Option PFloat :=
  let t := (pyStrip s).map asciiLower
  let (neg, r) := match t with
    | '-' :: r => (true, r)
    | '+' :: r => (false, r)
    | r => (false, r)
  if r = "nan".data then some PFloat.nan
  else if r = "inf".data ∨ r = "infinity".data then
    some (if neg then PFloat.ninf else PFloat.inf)
  else
    (parseUnsignedFloat r).map (fun q => PFloat.rat (if neg then mkRat (-q.num) q.den else q))

/-- Python `float(x)` on a JSON-shaped value. Errors model `TypeError` /
`ValueError` raised by the conversion. -/
def pyFloatOf : PyVal → Except String PFloat
  | .bool b => .ok (.rat (mkRat (if b then 1 else 0) 1))
  | .int n => .ok (.rat (mkRat n 1))
  | .float f => .ok f
  | .str s =>
    match parsePyFloat s with
    | some f => .ok f
    | Option.none => .error "ValueError"
  | _ => .error "TypeError"

/-- The clamping part of `_to_float_clamped`:
`if v < 0.0: v = 0.0` then `if v > 1.0: v = 1.0`. -/
def clampPF (v : PFloat) : PFloat :=
  let v1 := if PFloat.lt v (.rat (mkRat 0 1)) then PFloat.rat (mkRat 0 1) else v
  if PFloat.lt (.rat (mkRat 1 1)) v1 then PFloat.rat (mkRat 1 1) else v1

/-- `_to_float_clamped(x)`: `try: v = float(x) except: v = 0.0`, then clamp. -/
def toFloatClamped (x : PyVal) : PFloat :=
  clampPF (match pyFloatOf x with
    | .ok v => v
    | .error _ => .rat (mkRat 0 1))

/-- The locked topic taxonomy `TOPICS` (id, name), verbatim from the source. -/
def TOPICS : List (Nat × List Char) :=
  [ (1, "Health & Wellness".data),
    (2, "Fitness & Physical Activity".data),
    (3, "Career Advancement".data),
    (4, "Learning & Upskilling".data),
    (5, "Income & Financial Growth".data),
    (6, "Financial Discipline & Security".data),
    (7, "Relationships & Romantic Life".data),
    (8, "Family & Parenting".data),
    (9, "Social Life & Friendships".data),
    (10, "Housing & Property".data),
    (11, "Personal Growth & Mindset".data),
    (12, "Lifestyle & Experiences".data),
    (13, "Entrepreneurship & Business Building".data),
    (14, "Community, Purpose & Giving Back".data),
    (15, "Other / Unclear".data) ]

/-- `TOPIC_NAME_TO_ID = {t["topic"]: t["topic_id"] for t in TOPICS}`. -/
def TOPIC_NAME_TO_ID : List (List Char × Nat) :=
  TOPICS.map (fun t => (t.2, t.1))

/-- `ALLOWED_TOPICS` (the taxonomy names, i.e. the keys of the map). -/
def ALLOWED_TOPICS : List (List Char) :=
  TOPIC_NAME_TO_ID.map Prod.fst

/-- `OTHER_TOPIC = "Other / Unclear"`. -/
def OTHER_TOPIC : List Char := "Other / Unclear".data

/-- `ALLOWED_SENTIMENT`, verbatim from the source. -/
def ALLOWED_SENTIMENT : List (List Char) :=
  ["Positive".data, "Negative".data, "Neutral".data, "Mixed".data, "Unclear".data]

/-- `MAX_CHARS_PER_POST = 2000`. -/
def MAX_CHARS_PER_POST : Nat := 2000

/-- The six keys `validate_and_normalize` reads. -/
def kTopic : List Char := "topic".data

/-- Key `"subtopic"`. -/
def kSubtopic : List Char := "subtopic".data

/-- Key `"confidence"`. -/
def kConfidence : List Char := "confidence".data

/-- Key `"rationale"`. -/
def kRationale : List Char := "rationale".data

/-- Key `"newSentiment"`. -/
def kNewSentiment : List Char := "newSentiment".data

/-- Key `"newSentimentConfidence"`. -/
def kNSC : List Char := "newSentimentConfidence".data

/-- Key `"topic_id"` (present in the returned record). -/
def kTopicId : List Char := "topic_id".data

/-- The topic block of `validate_and_normalize`:
`topic = result.get("topic"); if topic not in TOPIC_NAME_TO_ID: topic = OTHER_TOPIC`.
Python raises `TypeError` on the `in` check when the value is unhashable
(a list or dict); otherwise only an exactly-matching string survives. -/
def resolveTopic (raw : PyVal) : Except String (List Char) :=
  match raw with
  | .list _ => .error "TypeError: unhashable type"
  | .dict _ => .error "TypeError: unhashable type"
  | .str s => .ok (if (alookup TOPIC_NAME_TO_ID s).isSome then s else OTHER_TOPIC)
  | _ => .ok OTHER_TOPIC

/-- The subtopic block: convert non-`None` non-`str` with `str()`, strip,
collapse falsy (empty) to `None`. -/
def resolveSubtopic (raw : PyVal) : Option (List Char) :=
  match raw with
  | .none => Option.none
  | .str s => let t := pyStrip s; if t = [] then Option.none else some t
  | v => let t := pyStrip (pyStr v); if t = [] then Option.none else some t

/-- The rationale block: default `""`, `str()` if not a string, strip, then
`rationale[:120].rstrip() + "…"` when longer than 120 characters. -/
def resolveRationale (raw : PyVal) : List Char :=
  let s0 := match raw with
    | .str s => s
    | v => pyStr v
  let s := pyStrip s0
  if 120 < s.length then pyRstrip (s.take 120) ++ [ellipsisChar] else s

/-- The sentiment block: `if new_sent not in ALLOWED_SENTIMENT: new_sent = "Unclear"`
(list membership compares by equality; only an exact string matches). -/
def resolveSentiment (raw : PyVal) : List Char :=
  match raw with
  | .str s => if s ∈ ALLOWED_SENTIMENT then s else "Unclear".data
  | _ => "Unclear".data

/-- The canonical record returned by `validate_and_normalize`. -/
structure CanonRecord where
  topic_id : Nat
  topic : List Char
  subtopic : Option (List Char)
  confidence : PFloat
  rationale : List Char
  newSentiment : List Char
  newSentimentConfidence : PFloat
  deriving DecidableEq, Repr

/-- `validate_and_normalize(result)`.  A non-dict argument raises
`AttributeError` at `result.get`; an unhashable `topic` value raises
`TypeError` at the `in` check; every other input produces a record. -/
def validate_and_normalize (result : PyVal) : Except String CanonRecord :=
  match result with
  | .dict kvs =>
    match resolveTopic (lookupD kvs kTopic PyVal.none) with
    | .error e => .error e
    | .ok topic =>
      let subtopic := resolveSubtopic (lookupD kvs kSubtopic PyVal.none)
      let confidence := toFloatClamped (lookupD kvs kConfidence (.float (.rat (mkRat 0 1))))
      let rationale := resolveRationale (lookupD kvs kRationale (.str []))
      let new_sent := resolveSentiment (lookupD kvs kNewSentiment PyVal.none)
      let nsc0 := toFloatClamped (lookupD kvs kNSC (.float (.rat (mkRat 0 1))))
      let nsc :=
        if topic = OTHER_TOPIC ∧ PFloat.lt (.rat (mkRat 7 10)) nsc0 then
          PFloat.rat (mkRat 7 10)
        else nsc0
      .ok { topic_id := (alookup TOPIC_NAME_TO_ID topic).getD 0
            topic := topic
            subtopic := subtopic
            confidence := confidence
            rationale := rationale
            newSentiment := new_sent
            newSentimentConfidence := nsc }
  | _ => .error "AttributeError"

/-- The key/value entries of the Python dict `validate_and_normalize`
returns, rebuilt from a canonical record. -/
def recKvs (r : CanonRecord) : List (List Char × PyVal) :=
  [ (kTopicId, .int r.topic_id),
    (kTopic, .str r.topic),
    (kSubtopic, match r.subtopic with
      | Option.none => PyVal.none
      | some s => PyVal.str s),
    (kConfidence, .float r.confidence),
    (kRationale, .str r.rationale),
    (kNewSentiment, .str r.newSentiment),
    (kNSC, .float r.newSentimentConfidence) ]

/-- The returned record, viewed again as the Python dict
`validate_and_normalize` builds (for the idempotence claim). -/
def recToPyVal (r : CanonRecord) : PyVal := .dict (recKvs r)

/-- `trim_text(text)`; the `Option` argument models `text or ""` treating a
missing/`None` text as empty. -/
def trim_text (text : Option (List Char)) : List Char :=
  let t := pyStrip (text.getD [])
  if t.length ≤ MAX_CHARS_PER_POST then t
  else pyRstrip (t.take MAX_CHARS_PER_POST) ++ [ellipsisChar]

/-- Trace of one run of `call_with_retries`: the returned value (`Option.none`
models Python falling off the loop and returning `None`, possible only for
`max_retries = 0`), the durations passed to `time.sleep` in order, and the
attempt indices at which `fn` was invoked. -/
structure RetryTrace (E A : Type) where
  result : Option (Except E A)
  sleeps : List ℚ
  calls : List Nat
  deriving Repr

/-- The loop of `call_with_retries`: `remaining` counts the iterations the
`for attempt in range(max_retries)` loop still has (so `remaining = 0` is the
loop running off the end and the function returning `None`), `attempt` is the
current index, and `fn i` is the outcome of the `i`-th invocation of the
operation. -/
def retryGo {E A : Type} (fn : Nat → Except E A) (max_retries : Nat) (base_delay : ℚ) :
    Nat → Nat → RetryTrace E A
  | 0, _ => ⟨Option.none, [], []⟩
  | remaining + 1, attempt =>
    match fn attempt with
    | .ok a => ⟨some (.ok a), [], [attempt]⟩
    | .error e =>
      if attempt = max_retries - 1 then ⟨some (.error e), [], [attempt]⟩
      else
        let rest := retryGo fn max_retries base_delay remaining (attempt + 1)
        ⟨rest.result, base_delay * 2 ^ attempt :: rest.sleeps, attempt :: rest.calls⟩

/-- `call_with_retries(fn, max_retries, base_delay)`. -/
def call_with_retries {E A : Type} (fn : Nat → Except E A) (max_retries : Nat)
    (base_delay : ℚ) : RetryTrace E A :=
  retryGo fn max_retries base_delay max_retries 0

/-- JSON whitespace skipping (space, tab, newline, carriage return). -/
def jsonWsSkip (s : List Char) : List Char :=
  s.dropWhile (fun c => c = ' ' || c = '\t' || c = '\n' || c = '\r')

/-- Value of a hexadecimal digit, if any (written over raw code points). -/
def hexVal? (c : Char) : Option Nat :=
  let n := c.toNat
  if 48 ≤ n ∧ n ≤ 57 then some (n - 48)
  else if 97 ≤ n ∧ n ≤ 102 then some (n - 87)
  else if 65 ≤ n ∧ n ≤ 70 then some (n - 55)
  else Option.none

/-- JSON string escapes (other than `\uXXXX`). -/
def escChar? (c : Char) : Option Char :=
  if c = '"' then some '"'
  else if c = '\\' then some '\\'
  else if c = '/' then some '/'
  else if c = 'b' then some (Char.ofNat 8)
  else if c = 'f' then some (Char.ofNat 12)
  else if c = 'n' then some '\n'
  else if c = 'r' then some '\r'
  else if c = 't' then some '\t'
  else Option.none

/-- Parse the body of a JSON string (after the opening quote), returning the
decoded characters and the remaining input. -/
def jParseStr : Nat → List Char → Except String (List Char × List Char)
  | 0, _ => .error "Unterminated string"
  | fuel + 1, s =>
    match s with
    | [] => .error "Unterminated string"
    | c :: r =>
      if c = '"' then .ok ([], r)
      else if c = '\\' then
        match r with
        | [] => .error "Unterminated string"
        | e :: r2 =>
          if e = 'u' then
            match r2 with
            | h1 :: h2 :: h3 :: h4 :: r3 =>
              match hexVal? h1, hexVal? h2, hexVal? h3, hexVal? h4 with
              | some a, some b, some c2, some d =>
                match jParseStr fuel r3 with
                | .ok (cs, rest) => .ok (Char.ofNat (((a * 16 + b) * 16 + c2) * 16 + d) :: cs, rest)
                | .error err => .error err
              | _, _, _, _ => .error "Invalid hex escape"
            | _ => .error "Invalid hex escape"
          else
            match escChar? e with
            | some ch =>
              match jParseStr fuel r2 with
              | .ok (cs, rest) => .ok (ch :: cs, rest)
              | .error err => .error err
            | Option.none => .error "Invalid escape"
      else
        match jParseStr fuel r with
        | .ok (cs, rest) => .ok (c :: cs, rest)
        | .error err => .error err

/-- Build the `PyVal` for a JSON number from its parsed components.  A number
without fraction or exponent is a Python `int`; otherwise a float. -/
def jNumVal (neg : Bool) (ip fp : List Char) (hasExp eneg : Bool) (e : Nat) : PyVal :=
  if fp = [] ∧ hasExp = false then
    .int (if neg then -(digitsVal ip : ℤ) else (digitsVal ip : ℤ))
  else
    let k := fp.length
    let m0 : ℤ := (digitsVal ip * 10 ^ k + digitsVal fp : ℕ)
    let m : ℤ := if neg then -m0 else m0
    .float (.rat
      (if hasExp ∧ eneg then mkRat m (10 ^ k * 10 ^ e)
       else if hasExp then mkRat (m * (10 : ℤ) ^ e) (10 ^ k)
       else mkRat m (10 ^ k)))

/-- Parse an optional exponent part and finish a JSON number. -/
def jNumExpCont (neg : Bool) (ip fp : List Char) (r : List Char) :
    Except String (PyVal × List Char) :=
  match r with
  | c :: rr =>
    if c = 'e' ∨ c = 'E' then
      let (eneg, r3) := match rr with
        | '-' :: x => (true, x)
        | '+' :: x => (false, x)
        | x => (false, x)
      let ed := r3.takeWhile Char.isDigit
      let r4 := r3.dropWhile Char.isDigit
      if ed = [] then .error "Expecting value"
      else .ok (jNumVal neg ip fp true eneg (digitsVal ed), r4)
    else .ok (jNumVal neg ip fp false false 0, r)
  | [] => .ok (jNumVal neg ip fp false false 0, [])

/-- Parse a JSON number (leading-zero numerals are rejected, as the Python
decoder's grammar does). -/
def jParseNum (s : List Char) : Except String (PyVal × List Char) :=
  let (neg, r) := match s with
    | '-' :: r => (true, r)
    | _ => (false, s)
  let ip := r.takeWhile Char.isDigit
  let r1 := r.dropWhile Char.isDigit
  if ip = [] then .error "Expecting value"
  else if 1 < ip.length ∧ ip.head? = some '0' then .error "Expecting value"
  else
    match r1 with
    | '.' :: rr =>
      let fp := rr.takeWhile Char.isDigit
      let r2 := rr.dropWhile Char.isDigit
      if fp = [] then .error "Expecting value"
      else jNumExpCont neg ip fp r2
    | _ => jNumExpCont neg ip [] r1

mutual

/-- Parse one JSON value (after skipping leading whitespace), modelling the
recursive descent of Python's `json.loads`.  `fuel` bounds the recursion and
is chosen large enough at the top level. -/
def jParseVal : Nat → List Char → Except String (PyVal × List Char)
  | 0, _ => .error "Expecting value"
  | fuel + 1, s =>
    let t := jsonWsSkip s
    match t with
    | [] => .error "Expecting value"
    | c :: r =>
      if c = lbraceC then
        match jsonWsSkip r with
        | c2 :: r2 =>
          if c2 = rbraceC then .ok (.dict [], r2)
          else jParseObjLoop fuel (jsonWsSkip r) []
        | [] => .error "Expecting property name"
      else if c = '[' then
        match jsonWsSkip r with
        | ']' :: r2 => .ok (.list [], r2)
        | _ => jParseArrLoop fuel (jsonWsSkip r) []
      else if c = '"' then
        match jParseStr (r.length + 1) r with
        | .ok (cs, rest) => .ok (.str cs, rest)
        | .error e => .error e
      else if "true".data.isPrefixOf t then .ok (.bool true, t.drop 4)
      else if "false".data.isPrefixOf t then .ok (.bool false, t.drop 5)
      else if "null".data.isPrefixOf t then .ok (.none, t.drop 4)
      else if "NaN".data.isPrefixOf t then .ok (.float .nan, t.drop 3)
      else if "Infinity".data.isPrefixOf t then .ok (.float .inf, t.drop 8)
      else if "-Infinity".data.isPrefixOf t then .ok (.float .ninf, t.drop 9)
      else jParseNum t

/-- Parse the elements of a JSON array after `[`. -/
def jParseArrLoop : Nat → List Char → List PyVal → Except String (PyVal × List Char)
  | 0, _, _ => .error "Expecting value"
  | fuel + 1, s, acc =>
    match jParseVal fuel s with
    | .error e => .error e
    | .ok (v, rest) =>
      match jsonWsSkip rest with
      | ',' :: r2 => jParseArrLoop fuel r2 (acc ++ [v])
      | ']' :: r2 => .ok (.list (acc ++ [v]), r2)
      | _ => .error "Expecting delimiter"

/-- Parse the members of a JSON object, positioned at a key. -/
def jParseObjLoop : Nat → List Char → List (List Char × PyVal) →
    Except String (PyVal × List Char)
  | 0, _, _ => .error "Expecting value"
  | fuel + 1, s, acc =>
    match s with
    | '"' :: r =>
      match jParseStr (r.length + 1) r with
      | .error e => .error e
      | .ok (key, r2) =>
        match jsonWsSkip r2 with
        | ':' :: r3 =>
          match jParseVal fuel r3 with
          | .error e => .error e
          | .ok (v, r4) =>
            match jsonWsSkip r4 with
            | ',' :: r5 => jParseObjLoop fuel (jsonWsSkip r5) (acc ++ [(key, v)])
            | c6 :: r5 =>
              if c6 = rbraceC then .ok (.dict (acc ++ [(key, v)]), r5)
              else .error "Expecting delimiter"
            | [] => .error "Expecting delimiter"
        | _ => .error "Expecting colon delimiter"
    | _ => .error "Expecting property name"

end

/-- `json.loads(s)`: parse one value, then require only whitespace after it. -/
def pyJsonLoads (s : List Char) : Except String PyVal :=
  match jParseVal (2 * s.length + 4) s with
  | .error e => .error e
  | .ok (v, rest) => if jsonWsSkip rest = [] then .ok v else .error "Extra data"

/-- Python `str.find` (first index of `c`, `None` for `-1`). -/
def pyFind (s : List Char) (c : Char) : Option Nat := s.findIdx? (· = c)

/-- Python `str.rfind` (last index of `c`, `None` for `-1`). -/
def pyRfind (s : List Char) (c : Char) : Option Nat :=
  match s.reverse.findIdx? (· = c) with
  | some i => some (s.length - 1 - i)
  | Option.none => Option.none

/-- The defensive JSON extraction in `analyze_message`: try `json.loads` on
the whole text; on failure, find the first `{` and last `}` and, when both
exist with the `}` strictly after the `{`, parse the inclusive slice between
them; otherwise re-raise the original parse error. -/
def extract_json (raw_text : List Char) : Except String PyVal :=
  match pyJsonLoads raw_text with
  | .ok v => .ok v
  | .error e =>
    match pyFind raw_text lbraceC, pyRfind raw_text rbraceC with
    | some start, some stop =>
      if stop ≤ start then .error e
      else pyJsonLoads ((raw_text.take (stop + 1)).drop start)
    | some _, Option.none => .error e
    | Option.none, _ => .error e

/-- Membership of a `PFloat` in the closed unit interval (false for the
special values). -/
def isUnitInterval : PFloat → Bool
  | .rat q => decide (0 ≤ q ∧ q ≤ 1)
  | _ => false

/-- The six raw-result keys `validate_and_normalize` reads. -/
def sixKeys : List (List Char) :=
  [kTopic, kSubtopic, kConfidence, kRationale, kNewSentiment, kNSC]

/-- Unhashable JSON-shaped Python values (lists and dicts); using one as the
`topic` field makes the `in` check raise `TypeError`. -/
def isUnhashable : PyVal → Bool
  | .list _ => true
  | .dict _ => true
  | _ => false

/-- The string a raw rationale value is converted to: itself if already a
string, otherwise its `str()` representation. -/
def rationaleStrOf : PyVal → List Char
  | .str s => s
  | v => pyStr v

/-- The `rationale` field of a normalization outcome (empty on error). -/
def rationaleOf : Except String CanonRecord → List Char
  | .ok r => r.rationale
  | .error _ => []

theorem alookup_isSome_mem {β : Type} (l : List (List Char × β)) (k : List Char)
    (h : (alookup l k).isSome = true) : k ∈ l.map Prod.fst := by
  induction l with
  | nil => simp [alookup] at h
  | cons hd tl ih =>
    obtain ⟨k1, v1⟩ := hd
    by_cases hk : k1 = k
    · simp only [List.map_cons, List.mem_cons]
      exact Or.inl hk.symm
    · simp only [alookup, if_neg hk] at h
      simp only [List.map_cons, List.mem_cons]
      exact Or.inr (ih h)

theorem pyLstrip_eq (s : List Char) : pyLstrip s = s.dropWhile pyIsSpace := rfl

theorem pyRstrip_eq (s : List Char) : pyRstrip s = List.rdropWhile pyIsSpace s := rfl

theorem pyRstrip_pre (s : List Char) : pyRstrip s <+: s := by
  rw [pyRstrip_eq]
  exact List.rdropWhile_prefix pyIsSpace s

theorem pyRstrip_idem (s : List Char) : pyRstrip (pyRstrip s) = pyRstrip s := by
  simp only [pyRstrip_eq]
  exact List.rdropWhile_idempotent pyIsSpace s

theorem pyStrip_get_zero (s : List Char) (h : 0 < (pyStrip s).length) :
    pyIsSpace ((pyStrip s).get ⟨0, h⟩) = false := by
  have hpre : pyStrip s <+: pyLstrip s := pyRstrip_pre (pyLstrip s)
  have hlen : 0 < (pyLstrip s).length := lt_of_lt_of_le h hpre.length_le
  have hget := hpre.getElem (n := 0) h
  have hnot := List.dropWhile_get_zero_not pyIsSpace s hlen
  simp only [List.get_eq_getElem] at hnot ⊢
  rw [hget]
  simpa using hnot

theorem pyStrip_lstrip_self (s : List Char) : pyLstrip (pyStrip s) = pyStrip s := by
  rw [pyLstrip_eq, List.dropWhile_eq_self_iff]
  intro hl
  simpa using pyStrip_get_zero s hl

theorem pyStrip_rstrip_self (s : List Char) : pyRstrip (pyStrip s) = pyStrip s := by
  rw [pyStrip, pyRstrip_idem]

theorem pyStrip_idem (s : List Char) : pyStrip (pyStrip s) = pyStrip s := by
  rw [pyStrip, pyStrip_lstrip_self, pyStrip_rstrip_self]

theorem pyStrip_eq_self (s : List Char)
    (hh : ∀ h : 0 < s.length, pyIsSpace (s.get ⟨0, h⟩) = false)
    (hl : ∀ h : s ≠ [], pyIsSpace (s.getLast h) = false) :
    pyStrip s = s := by
  have h1 : pyLstrip s = s := by
    rw [pyLstrip_eq, List.dropWhile_eq_self_iff]
    intro hlen
    simpa using hh hlen
  rw [pyStrip, h1, pyRstrip_eq]
  rw [List.rdropWhile_eq_self_iff]
  intro hne
  simpa using hl hne

theorem pyStrip_all_not_space (s : List Char)
    (h : ∀ c ∈ s, pyIsSpace c = false) : pyStrip s = s := by
  apply pyStrip_eq_self
  · intro hlen
    exact h _ (s.get_mem 0 hlen)
  · intro hne
    exact h _ (List.getLast_mem hne)

theorem pyRstrip_all_not_space (s : List Char)
    (h : ∀ c ∈ s, pyIsSpace c = false) : pyRstrip s = s := by
  rw [pyRstrip_eq, List.rdropWhile_eq_self_iff]
  intro hne
  simpa using h _ (List.getLast_mem hne)

theorem mkRat_zero_eq : (mkRat 0 1 : ℚ) = 0 := by norm_num

theorem mkRat_one_eq : (mkRat 1 1 : ℚ) = 1 := by norm_num

theorem mkRat_st_eq : (mkRat 7 10 : ℚ) = 7 / 10 := by
  norm_num [Rat.mkRat_eq_div]

theorem PFloat_lt_irrefl (f : PFloat) : PFloat.lt f f = false := by
  cases f <;> simp [PFloat.lt]

theorem PFloat_lt_rat (a b : ℚ) : PFloat.lt (.rat a) (.rat b) = decide (a < b) := rfl

theorem PFloat_lt_rat_iff (a b : ℚ) : PFloat.lt (.rat a) (.rat b) = true ↔ a < b := by
  rw [PFloat_lt_rat]
  exact decide_eq_true_iff

theorem clampPF_rat (q : ℚ) : clampPF (.rat q) = .rat (min 1 (max 0 q)) := by
  simp only [clampPF, mkRat_zero_eq, mkRat_one_eq]
  by_cases h0 : q < 0
  · have hv1 : (if (PFloat.rat q).lt (PFloat.rat 0) = true then PFloat.rat 0 else PFloat.rat q)
        = PFloat.rat 0 := if_pos ((PFloat_lt_rat_iff q 0).mpr h0)
    rw [hv1, if_neg (by rw [PFloat_lt_rat_iff]; norm_num)]
    have hm : min 1 (max 0 q) = 0 := by
      rw [max_eq_left h0.le]
      exact min_eq_right (by norm_num)
    rw [hm]
  · have hv1 : (if (PFloat.rat q).lt (PFloat.rat 0) = true then PFloat.rat 0 else PFloat.rat q)
        = PFloat.rat q := if_neg (by rw [PFloat_lt_rat_iff]; exact h0)
    rw [hv1]
    by_cases h1 : 1 < q
    · rw [if_pos ((PFloat_lt_rat_iff 1 q).mpr h1)]
      have hm : min 1 (max 0 q) = 1 := by
        rw [max_eq_right (by linarith : (0:ℚ) ≤ q)]
        exact min_eq_left h1.le
      rw [hm]
    · rw [if_neg (by rw [PFloat_lt_rat_iff]; exact h1)]
      have hm : min 1 (max 0 q) = q := by
        rw [max_eq_right (by linarith : (0:ℚ) ≤ q)]
        exact min_eq_right (by linarith : q ≤ 1)
      rw [hm]

theorem clampPF_nan : clampPF .nan = .nan := rfl

theorem clampPF_inf : clampPF .inf = .rat (mkRat 1 1) := rfl

theorem clampPF_ninf : clampPF .ninf = .rat (mkRat 0 1) := rfl

theorem clampPF_cases (v : PFloat) :
    (v = .nan ∧ clampPF v = .nan) ∨ ∃ q : ℚ, clampPF v = .rat q ∧ 0 ≤ q ∧ q ≤ 1 := by
  cases v with
  | nan => exact Or.inl ⟨rfl, rfl⟩
  | inf =>
    refine Or.inr ⟨mkRat 1 1, clampPF_inf, ?_, ?_⟩ <;> rw [mkRat_one_eq]
    norm_num
  | ninf =>
    refine Or.inr ⟨mkRat 0 1, clampPF_ninf, ?_, ?_⟩ <;> rw [mkRat_zero_eq]
    norm_num
  | rat q =>
    refine Or.inr ⟨min 1 (max 0 q), clampPF_rat q, ?_, ?_⟩
    · exact le_min (by norm_num) (le_max_left 0 q)
    · exact min_le_left 1 (max 0 q)

theorem clampPF_idem (v : PFloat) : clampPF (clampPF v) = clampPF v := by
  rcases clampPF_cases v with ⟨_, h⟩ | ⟨q, h, h0, h1⟩
  · rw [h, clampPF_nan]
  · rw [h, clampPF_rat, max_eq_right h0, min_eq_right h1]

theorem toFloatClamped_eq_clamp (x : PyVal) :
    ∃ v : PFloat, toFloatClamped x = clampPF v := by
  unfold toFloatClamped
  exact ⟨_, rfl⟩

theorem toFloatClamped_idem_float (x : PyVal) :
    toFloatClamped (.float (toFloatClamped x)) = toFloatClamped x := by
  obtain ⟨v, hv⟩ := toFloatClamped_eq_clamp x
  rw [hv]
  show clampPF (clampPF v) = clampPF v
  exact clampPF_idem v

theorem toFloatClamped_error {x : PyVal} (h : ∀ v, pyFloatOf x ≠ .ok v) :
    toFloatClamped x = .rat (mkRat 0 1) := by
  unfold toFloatClamped
  cases hf : pyFloatOf x with
  | ok v => exact absurd hf (h v)
  | error e =>
    have : clampPF (.rat (mkRat 0 1)) = .rat (mkRat 0 1) := by decide
    exact this

theorem resolveTopic_isSome {raw : PyVal} {t : List Char} (h : resolveTopic raw = .ok t) :
    (alookup TOPIC_NAME_TO_ID t).isSome = true := by
  have hOther : (alookup TOPIC_NAME_TO_ID OTHER_TOPIC).isSome = true := rfl
  cases raw with
  | str s =>
    simp only [resolveTopic, Except.ok.injEq] at h
    by_cases hs : (alookup TOPIC_NAME_TO_ID s).isSome = true
    · rw [if_pos hs] at h
      rwa [← h]
    · rw [if_neg hs] at h
      rw [← h]
      exact hOther
  | list xs => simp [resolveTopic] at h
  | dict kvs => simp [resolveTopic] at h
  | none =>
    simp only [resolveTopic, Except.ok.injEq] at h
    rw [← h]
    exact hOther
  | bool b =>
    simp only [resolveTopic, Except.ok.injEq] at h
    rw [← h]
    exact hOther
  | int n =>
    simp only [resolveTopic, Except.ok.injEq] at h
    rw [← h]
    exact hOther
  | float f =>
    simp only [resolveTopic, Except.ok.injEq] at h
    rw [← h]
    exact hOther

theorem resolveTopic_str_of_isSome {t : List Char}
    (h : (alookup TOPIC_NAME_TO_ID t).isSome = true) :
    resolveTopic (.str t) = .ok t := by
  simp only [resolveTopic, if_pos h]

theorem resolveSentiment_mem (raw : PyVal) : resolveSentiment raw ∈ ALLOWED_SENTIMENT := by
  have hU : "Unclear".data ∈ ALLOWED_SENTIMENT := by decide
  cases raw with
  | str s =>
    simp only [resolveSentiment]
    by_cases hs : s ∈ ALLOWED_SENTIMENT
    · rwa [if_pos hs]
    · rwa [if_neg hs]
  | none => exact hU
  | bool b => exact hU
  | int n => exact hU
  | float f => exact hU
  | list xs => exact hU
  | dict kvs => exact hU

theorem resolveSentiment_str_of_mem {s : List Char} (h : s ∈ ALLOWED_SENTIMENT) :
    resolveSentiment (.str s) = s := by
  simp only [resolveSentiment, if_pos h]

theorem resolveSubtopic_some {raw : PyVal} {s : List Char}
    (h : resolveSubtopic raw = some s) : pyStrip s = s ∧ s ≠ [] := by
  cases raw with
  | none => simp [resolveSubtopic] at h
  | str s0 =>
    simp only [resolveSubtopic] at h
    by_cases ht : pyStrip s0 = []
    · rw [if_pos ht] at h
      exact absurd h (by simp)
    · rw [if_neg ht] at h
      have hs : s = pyStrip s0 := (Option.some.injEq _ _ ▸ h).symm
      subst hs
      exact ⟨pyStrip_idem s0, ht⟩
  | bool b =>
    simp only [resolveSubtopic] at h
    by_cases ht : pyStrip (pyStr (.bool b)) = []
    · rw [if_pos ht] at h
      exact absurd h (by simp)
    · rw [if_neg ht] at h
      have hs : s = pyStrip (pyStr (.bool b)) := (Option.some.injEq _ _ ▸ h).symm
      subst hs
      exact ⟨pyStrip_idem _, ht⟩
  | int n =>
    simp only [resolveSubtopic] at h
    by_cases ht : pyStrip (pyStr (.int n)) = []
    · rw [if_pos ht] at h
      exact absurd h (by simp)
    · rw [if_neg ht] at h
      have hs : s = pyStrip (pyStr (.int n)) := (Option.some.injEq _ _ ▸ h).symm
      subst hs
      exact ⟨pyStrip_idem _, ht⟩
  | float f =>
    simp only [resolveSubtopic] at h
    by_cases ht : pyStrip (pyStr (.float f)) = []
    · rw [if_pos ht] at h
      exact absurd h (by simp)
    · rw [if_neg ht] at h
      have hs : s = pyStrip (pyStr (.float f)) := (Option.some.injEq _ _ ▸ h).symm
      subst hs
      exact ⟨pyStrip_idem _, ht⟩
  | list xs =>
    simp only [resolveSubtopic] at h
    by_cases ht : pyStrip (pyStr (.list xs)) = []
    · rw [if_pos ht] at h
      exact absurd h (by simp)
    · rw [if_neg ht] at h
      have hs : s = pyStrip (pyStr (.list xs)) := (Option.some.injEq _ _ ▸ h).symm
      subst hs
      exact ⟨pyStrip_idem _, ht⟩
  | dict kvs =>
    simp only [resolveSubtopic] at h
    by_cases ht : pyStrip (pyStr (.dict kvs)) = []
    · rw [if_pos ht] at h
      exact absurd h (by simp)
    · rw [if_neg ht] at h
      have hs : s = pyStrip (pyStr (.dict kvs)) := (Option.some.injEq _ _ ▸ h).symm
      subst hs
      exact ⟨pyStrip_idem _, ht⟩

theorem resolveSubtopic_str_clean {s : List Char} (h1 : pyStrip s = s) (h2 : s ≠ []) :
    resolveSubtopic (.str s) = some s := by
  simp only [resolveSubtopic, h1, if_neg h2]

theorem ellipsis_not_space : pyIsSpace ellipsisChar = false := by decide

theorem lstrip_fixed_head (a : Char) (l : List Char) (h : pyLstrip (a :: l) = a :: l) :
    pyIsSpace a = false := by
  by_contra hc
  have ha : pyIsSpace a = true := by simpa using hc
  have hdw : pyLstrip (a :: l) = pyLstrip l := by
    simp [pyLstrip, List.dropWhile, ha]
  rw [hdw] at h
  have hlen := congrArg List.length h
  have hle : (l.dropWhile pyIsSpace).length ≤ l.length :=
    (List.dropWhile_sublist pyIsSpace).length_le
  simp only [pyLstrip, List.length_cons] at hlen hle
  omega

theorem resolveRationale_eq (raw : PyVal) :
    resolveRationale raw =
      (if 120 < (pyStrip (rationaleStrOf raw)).length then
        pyRstrip ((pyStrip (rationaleStrOf raw)).take 120) ++ [ellipsisChar]
      else pyStrip (rationaleStrOf raw)) := by
  cases raw <;> rfl

theorem pyStrip_append_ellipsis (w : List Char)
    (hw : ∀ a tl, w = a :: tl → pyIsSpace a = false) :
    pyStrip (w ++ [ellipsisChar]) = w ++ [ellipsisChar] := by
  have hr : pyRstrip (w ++ [ellipsisChar]) = w ++ [ellipsisChar] := by
    rw [pyRstrip_eq, List.rdropWhile_eq_self_iff]
    intro hne
    rw [List.getLast_append_of_ne_nil (by simp : ([ellipsisChar] : List Char) ≠ [])]
    simp [ellipsis_not_space]
  have hl : pyLstrip (w ++ [ellipsisChar]) = w ++ [ellipsisChar] := by
    cases w with
    | nil =>
      simp only [List.nil_append]
      decide
    | cons a tl =>
      have ha := hw a tl rfl
      simp [pyLstrip, List.dropWhile, ha]
  rw [pyStrip, hl, hr]

theorem trunc_head_not_space (t : List Char) (ht : pyStrip t = t) (h0 : t ≠ []) :
    ∀ a tl, pyRstrip (t.take 120) = a :: tl → pyIsSpace a = false := by
  intro a tl hw
  cases t with
  | nil => exact absurd rfl h0
  | cons sh st =>
    have hsh : pyIsSpace sh = false := by
      have h2 := pyStrip_lstrip_self (sh :: st)
      rw [ht] at h2
      exact lstrip_fixed_head sh st h2
    have hpre : pyRstrip ((sh :: st).take 120) <+: (sh :: st).take 120 :=
      pyRstrip_pre _
    rw [hw, List.take_succ_cons] at hpre
    obtain ⟨u, hu⟩ := hpre
    have ha : a = sh := by
      have := congrArg List.head? hu
      simpa using this
    rw [ha]
    exact hsh

theorem trunc_strip (t : List Char) (ht : pyStrip t = t) (hlen : 120 < t.length) :
    pyStrip (pyRstrip (t.take 120) ++ [ellipsisChar]) =
      pyRstrip (t.take 120) ++ [ellipsisChar] :=
  pyStrip_append_ellipsis _
    (trunc_head_not_space t ht (by
      intro h
      rw [h] at hlen
      simp at hlen))

theorem resolveRationale_strip (raw : PyVal) :
    pyStrip (resolveRationale raw) = resolveRationale raw := by
  rw [resolveRationale_eq raw]
  by_cases hlen : 120 < (pyStrip (rationaleStrOf raw)).length
  · rw [if_pos hlen]
    exact trunc_strip _ (pyStrip_idem _) hlen
  · rw [if_neg hlen]
    exact pyStrip_idem _

theorem resolveRationale_idem (raw : PyVal) :
    resolveRationale (.str (resolveRationale raw)) = resolveRationale raw := by
  have hstr := resolveRationale_strip raw
  rw [resolveRationale_eq (.str (resolveRationale raw))]
  simp only [rationaleStrOf]
  rw [hstr]
  by_cases hr : 120 < (resolveRationale raw).length
  · rw [if_pos hr]
    rw [resolveRationale_eq raw] at hr ⊢
    by_cases hlen : 120 < (pyStrip (rationaleStrOf raw)).length
    · rw [if_pos hlen] at hr ⊢
      have h1 := (pyRstrip_pre ((pyStrip (rationaleStrOf raw)).take 120)).length_le
      have h2 : ((pyStrip (rationaleStrOf raw)).take 120).length ≤ 120 := by
        simp
      simp only [List.length_append, List.length_cons, List.length_nil] at hr
      have hw120 : (pyRstrip ((pyStrip (rationaleStrOf raw)).take 120)).length = 120 := by
        omega
      rw [List.take_left' hw120, pyRstrip_idem]
    · rw [if_neg hlen] at hr
      exact absurd hr hlen
  · rw [if_neg hr]

theorem retryGo_succ_ok {E A : Type} {fn : Nat → Except E A} {mr : Nat} {d : ℚ}
    {remaining attempt : Nat} {a : A} (hf : fn attempt = .ok a) :
    retryGo fn mr d (remaining + 1) attempt = ⟨some (.ok a), [], [attempt]⟩ := by
  simp only [retryGo, hf]

theorem retryGo_succ_error_last {E A : Type} {fn : Nat → Except E A} {mr : Nat} {d : ℚ}
    {remaining attempt : Nat} {e : E} (hf : fn attempt = .error e) (hl : attempt = mr - 1) :
    retryGo fn mr d (remaining + 1) attempt = ⟨some (.error e), [], [attempt]⟩ := by
  simp only [retryGo, hf, if_pos hl]

theorem retryGo_succ_error {E A : Type} {fn : Nat → Except E A} {mr : Nat} {d : ℚ}
    {remaining attempt : Nat} {e : E} (hf : fn attempt = .error e) (hne : attempt ≠ mr - 1) :
    retryGo fn mr d (remaining + 1) attempt =
      ⟨(retryGo fn mr d remaining (attempt + 1)).result,
        d * 2 ^ attempt :: (retryGo fn mr d remaining (attempt + 1)).sleeps,
        attempt :: (retryGo fn mr d remaining (attempt + 1)).calls⟩ := by
  simp only [retryGo, hf, if_neg hne]

theorem retryGo_ok {E A : Type} (fn : Nat → Except E A) (mr : Nat) (d : ℚ) :
    ∀ (k remaining attempt : Nat) (a : A),
      k < remaining →
      attempt + remaining = mr →
      (∀ i, i < k → (fn (attempt + i)).isOk = false) →
      fn (attempt + k) = .ok a →
      retryGo fn mr d remaining attempt =
        ⟨some (.ok a), (List.range' attempt k).map (fun i => d * 2 ^ i),
          List.range' attempt (k + 1)⟩ := by
  intro k
  induction k with
  | zero =>
    intro remaining attempt a hk hinv hfail hok
    match remaining, hk with
    | remaining + 1, _ =>
      rw [Nat.add_zero] at hok
      rw [retryGo_succ_ok hok]
      simp [List.range']
  | succ k ih =>
    intro remaining attempt a hk hinv hfail hok
    match remaining, hk with
    | remaining + 1, hk =>
      have hfa : (fn attempt).isOk = false := by
        have := hfail 0 (Nat.succ_pos k)
        rwa [Nat.add_zero] at this
      cases hf0 : fn attempt with
      | ok a0 => rw [hf0] at hfa; simp [Except.isOk, Except.toBool] at hfa
      | error e =>
        have hne : attempt ≠ mr - 1 := by omega
        have hrest := ih remaining (attempt + 1) a (by omega) (by omega)
          (fun i hi => by
            have := hfail (i + 1) (by omega)
            rwa [show attempt + (i + 1) = attempt + 1 + i by omega] at this)
          (by rwa [show attempt + 1 + k = attempt + (k + 1) by omega])
        rw [retryGo_succ_error hf0 hne, hrest]
        rw [List.range'_succ attempt (k + 1), List.range'_succ attempt k]
        simp

theorem retryGo_allFail {E A : Type} (fn : Nat → Except E A) (mr : Nat) (d : ℚ) :
    ∀ (remaining attempt : Nat) (e : E),
      0 < remaining →
      attempt + remaining = mr →
      (∀ i, i < remaining → (fn (attempt + i)).isOk = false) →
      fn (attempt + (remaining - 1)) = .error e →
      retryGo fn mr d remaining attempt =
        ⟨some (.error e), (List.range' attempt (remaining - 1)).map (fun i => d * 2 ^ i),
          List.range' attempt remaining⟩ := by
  intro remaining
  induction remaining with
  | zero => intro attempt e h0; omega
  | succ r ih =>
    intro attempt e h0 hinv hfail herr
    cases r with
    | zero =>
      rw [Nat.add_zero] at hinv
      rw [show 0 + 1 - 1 = 0 from rfl, Nat.add_zero] at herr
      have hlast : attempt = mr - 1 := by omega
      rw [retryGo_succ_error_last herr hlast]
      simp [List.range']
    | succ r' =>
      have hfa : (fn attempt).isOk = false := by
        have := hfail 0 (by omega)
        rwa [Nat.add_zero] at this
      cases hf0 : fn attempt with
      | ok a0 => rw [hf0] at hfa; simp [Except.isOk, Except.toBool] at hfa
      | error e0 =>
        have hne : attempt ≠ mr - 1 := by omega
        have hrest := ih (attempt + 1) e (by omega) (by omega)
          (fun i hi => by
            have := hfail (i + 1) (by omega)
            rwa [show attempt + (i + 1) = attempt + 1 + i by omega] at this)
          (by rwa [show attempt + 1 + (r' + 1 - 1) = attempt + (r' + 1 + 1 - 1) by omega])
        rw [retryGo_succ_error hf0 hne, hrest]
        simp only [Nat.add_sub_cancel] at *
        rw [List.range'_succ attempt (r' + 1), List.range'_succ attempt r']
        simp

theorem resolveTopic_ok_of_hashable {v : PyVal} (h : isUnhashable v = false) :
    ∃ t, resolveTopic v = .ok t := by
  cases v with
  | list xs => simp [isUnhashable] at h
  | dict kvs => simp [isUnhashable] at h
  | str s => exact ⟨_, rfl⟩
  | none => exact ⟨_, rfl⟩
  | bool b => exact ⟨_, rfl⟩
  | int n => exact ⟨_, rfl⟩
  | float f => exact ⟨_, rfl⟩

theorem validate_ok_elim {r : PyVal} {rec : CanonRecord}
    (h : validate_and_normalize r = .ok rec) :
    ∃ kvs topic,
      r = .dict kvs ∧
      resolveTopic (lookupD kvs kTopic PyVal.none) = .ok topic ∧
      rec = { topic_id := (alookup TOPIC_NAME_TO_ID topic).getD 0
              topic := topic
              subtopic := resolveSubtopic (lookupD kvs kSubtopic PyVal.none)
              confidence := toFloatClamped (lookupD kvs kConfidence (.float (.rat (mkRat 0 1))))
              rationale := resolveRationale (lookupD kvs kRationale (.str []))
              newSentiment := resolveSentiment (lookupD kvs kNewSentiment PyVal.none)
              newSentimentConfidence :=
                if topic = OTHER_TOPIC ∧
                    PFloat.lt (.rat (mkRat 7 10))
                      (toFloatClamped (lookupD kvs kNSC (.float (.rat (mkRat 0 1))))) then
                  PFloat.rat (mkRat 7 10)
                else toFloatClamped (lookupD kvs kNSC (.float (.rat (mkRat 0 1)))) } := by
  cases r with
  | dict kvs =>
    refine ⟨kvs, ?_⟩
    cases hres : resolveTopic (lookupD kvs kTopic PyVal.none) with
    | error e =>
      simp only [validate_and_normalize, hres] at h
      exact Except.noConfusion h
    | ok t =>
      simp only [validate_and_normalize, hres, Except.ok.injEq] at h
      exact ⟨t, rfl, rfl, h.symm⟩
  | none => simp [validate_and_normalize] at h
  | bool b => simp [validate_and_normalize] at h
  | int n => simp [validate_and_normalize] at h
  | float f => simp [validate_and_normalize] at h
  | str s => simp [validate_and_normalize] at h
  | list xs => simp [validate_and_normalize] at h

theorem validate_fixed (tid : Nat) (t : List Char) (st : Option (List Char)) (cf : PFloat)
    (ra : List Char) (ns : List Char) (nc : PFloat)
    (h2 : alookup TOPIC_NAME_TO_ID t = some tid)
    (h3 : ∀ s, st = some s → pyStrip s = s ∧ s ≠ [])
    (h4 : clampPF cf = cf)
    (h5 : resolveRationale (.str ra) = ra)
    (h6 : ns ∈ ALLOWED_SENTIMENT)
    (h7 : clampPF nc = nc)
    (h8 : t = OTHER_TOPIC → PFloat.lt (.rat (mkRat 7 10)) nc = false) :
    validate_and_normalize (recToPyVal ⟨tid, t, st, cf, ra, ns, nc⟩) =
      .ok ⟨tid, t, st, cf, ra, ns, nc⟩ := by
  have h1 : (alookup TOPIC_NAME_TO_ID t).isSome = true := by rw [h2]; rfl
  have htop : resolveTopic (lookupD (recKvs ⟨tid, t, st, cf, ra, ns, nc⟩) kTopic PyVal.none) =
      .ok t := by
    rw [show lookupD (recKvs ⟨tid, t, st, cf, ra, ns, nc⟩) kTopic PyVal.none = .str t from rfl]
    exact resolveTopic_str_of_isSome h1
  rw [recToPyVal]
  simp only [validate_and_normalize, htop, Except.ok.injEq, CanonRecord.mk.injEq]
  refine ⟨?_, trivial, ?_, ?_, ?_, ?_, ?_⟩
  · rw [h2]
    rfl
  · cases st with
    | none =>
      rw [show lookupD (recKvs ⟨tid, t, Option.none, cf, ra, ns, nc⟩) kSubtopic PyVal.none =
          PyVal.none from rfl]
      rfl
    | some s =>
      rw [show lookupD (recKvs ⟨tid, t, some s, cf, ra, ns, nc⟩) kSubtopic PyVal.none =
          PyVal.str s from rfl]
      exact resolveSubtopic_str_clean (h3 s rfl).1 (h3 s rfl).2
  · rw [show toFloatClamped
        (lookupD (recKvs ⟨tid, t, st, cf, ra, ns, nc⟩) kConfidence (.float (.rat (mkRat 0 1)))) =
        clampPF cf from rfl]
    exact h4
  · rw [show lookupD (recKvs ⟨tid, t, st, cf, ra, ns, nc⟩) kRationale (.str []) =
        .str ra from rfl]
    exact h5
  · rw [show lookupD (recKvs ⟨tid, t, st, cf, ra, ns, nc⟩) kNewSentiment PyVal.none =
        .str ns from rfl]
    exact resolveSentiment_str_of_mem h6
  · rw [show toFloatClamped
        (lookupD (recKvs ⟨tid, t, st, cf, ra, ns, nc⟩) kNSC (.float (.rat (mkRat 0 1)))) =
        clampPF nc from rfl, h7]
    by_cases ht : t = OTHER_TOPIC
    · rw [if_neg]
      intro hc
      rw [h8 ht] at hc
      exact Bool.noConfusion hc.2
    · rw [if_neg]
      intro hc
      exact ht hc.1

/-- C1 (counterexample): the claim says `validate_and_normalize` never raises,
for any input shape including non-objects.  On the code, a non-dict argument
raises `AttributeError` at `result.get`, and even a dict whose `topic` value
is an unhashable container raises `TypeError` at the `in` check. -/
theorem validate_and_normalize_nondict_raises :
    validate_and_normalize (PyVal.str "some text".data) = .error "AttributeError" ∧
    validate_and_normalize PyVal.none = .error "AttributeError" ∧
    validate_and_normalize (.dict [(kTopic, .list [])]) =
      .error "TypeError: unhashable type" :=
  ⟨rfl, rfl, rfl⟩

/-- C1 (amended): `validate_and_normalize` raises no exception and returns a
canonical record for every dictionary input whose `topic` value is not an
unhashable container (list/dict). -/
theorem validate_and_normalize_total_on_safe_dicts
    (kvs : List (List Char × PyVal))
    (h : isUnhashable (lookupD kvs kTopic PyVal.none) = false) :
    ∃ rec, validate_and_normalize (.dict kvs) = .ok rec := by
  obtain ⟨t, ht⟩ := resolveTopic_ok_of_hashable h
  cases hv : validate_and_normalize (.dict kvs) with
  | ok rec => exact ⟨rec, rfl⟩
  | error e =>
    simp only [validate_and_normalize, ht] at hv
    exact Except.noConfusion hv

/-- Witness for C1's amended theorem at a concrete dict. -/
theorem validate_and_normalize_total_witness :
    ∃ rec, validate_and_normalize (.dict [(kTopic, .str "Career Advancement".data)]) =
      .ok rec :=
  validate_and_normalize_total_on_safe_dicts _ rfl

/-- C2: every record `validate_and_normalize` returns has a `topic` drawn from
the fixed taxonomy names, a `topic_id` equal to that name's id in the taxonomy
table (never independently assigned), and a `newSentiment` drawn from the five
fixed sentiment labels. -/
theorem canonical_record_in_taxonomy {r : PyVal} {rec : CanonRecord}
    (h : validate_and_normalize r = .ok rec) :
    rec.topic ∈ ALLOWED_TOPICS ∧
    alookup TOPIC_NAME_TO_ID rec.topic = some rec.topic_id ∧
    rec.newSentiment ∈ ALLOWED_SENTIMENT := by
  obtain ⟨kvs, t, hr, htop, hrec⟩ := validate_ok_elim h
  subst hrec
  have hsome := resolveTopic_isSome htop
  obtain ⟨tid, hid⟩ := Option.isSome_iff_exists.mp hsome
  refine ⟨?_, ?_, ?_⟩
  · exact alookup_isSome_mem _ _ hsome
  · show alookup TOPIC_NAME_TO_ID t = some ((alookup TOPIC_NAME_TO_ID t).getD 0)
    rw [hid]
    rfl
  · exact resolveSentiment_mem _

/-- Witness for C2 at a concrete input (the empty raw result). -/
theorem canonical_record_in_taxonomy_witness :
    OTHER_TOPIC ∈ ALLOWED_TOPICS ∧
    alookup TOPIC_NAME_TO_ID OTHER_TOPIC = some 15 ∧
    "Unclear".data ∈ ALLOWED_SENTIMENT :=
  @canonical_record_in_taxonomy (.dict [])
    ⟨15, OTHER_TOPIC, Option.none, .rat (mkRat 0 1), [], "Unclear".data,
      .rat (mkRat 0 1)⟩ rfl

/-- C3: the fallback-confidence cap uses the post-substitution topic: when the
resolved topic equals "Other / Unclear" and the converted-and-clamped raw
`newSentimentConfidence` exceeds 0.7, the output `newSentimentConfidence` is
exactly 0.7. -/
theorem fallback_confidence_cap {kvs : List (List Char × PyVal)} {rec : CanonRecord}
    (h : validate_and_normalize (.dict kvs) = .ok rec)
    (htop : rec.topic = OTHER_TOPIC)
    (hgt : PFloat.lt (.rat (mkRat 7 10))
      (toFloatClamped (lookupD kvs kNSC (.float (.rat (mkRat 0 1))))) = true) :
    rec.newSentimentConfidence = .rat (mkRat 7 10) := by
  obtain ⟨kvs2, t, hkv, htopr, hrec⟩ := validate_ok_elim h
  injection hkv with hk
  subst hk
  subst hrec
  dsimp only at htop ⊢
  rw [if_pos ⟨htop, hgt⟩]

/-- Witness for C3: an invalid (missing) topic is remapped to the fallback and
a raw confidence of 1.0 is capped to exactly 0.7. -/
theorem fallback_confidence_cap_witness :
    ∃ rec, validate_and_normalize (.dict [(kNSC, .float (.rat (mkRat 1 1)))]) = .ok rec ∧
      rec.newSentimentConfidence = .rat (mkRat 7 10) := by
  refine ⟨⟨15, OTHER_TOPIC, Option.none, .rat (mkRat 0 1), [], "Unclear".data,
    .rat (mkRat 7 10)⟩, rfl, ?_⟩
  exact @fallback_confidence_cap [(kNSC, PyVal.float (PFloat.rat (mkRat 1 1)))]
    ⟨15, OTHER_TOPIC, Option.none, .rat (mkRat 0 1), [], "Unclear".data, .rat (mkRat 7 10)⟩
    rfl rfl (by decide)

/-- C4: `call_with_retries` returns the operation's result on the first
successful attempt having invoked exactly attempts `0..k` and slept
`base_delay * 2^i` after each failed non-final attempt `i`; when all `n`
attempts fail it propagates the `n`-th failure having slept exactly `n - 1`
times (never after the final attempt); and with `max_attempts = 1` a single
failure propagates immediately with no sleep. -/
theorem call_with_retries_spec {E A : Type} (fn : Nat → Except E A) (n : Nat) (d : ℚ)
    (hn : 0 < n) :
    (∀ k a, k < n → (∀ i, i < k → (fn i).isOk = false) → fn k = .ok a →
      call_with_retries fn n d =
        ⟨some (.ok a), (List.range k).map (fun i => d * 2 ^ i), List.range (k + 1)⟩) ∧
    (∀ e, (∀ i, i < n → (fn i).isOk = false) → fn (n - 1) = .error e →
      call_with_retries fn n d =
        ⟨some (.error e), (List.range (n - 1)).map (fun i => d * 2 ^ i), List.range n⟩) ∧
    (∀ e, fn 0 = .error e → call_with_retries fn 1 d = ⟨some (.error e), [], [0]⟩) := by
  refine ⟨?_, ?_, ?_⟩
  · intro k a hk hfail hok
    have h := retryGo_ok fn n d k n 0 a hk (by omega)
      (fun i hi => by simpa using hfail i hi) (by simpa using hok)
    rw [call_with_retries, h, List.range_eq_range', List.range_eq_range']
  · intro e hfail herr
    have h := retryGo_allFail fn n d n 0 e hn (by omega)
      (fun i hi => by simpa using hfail i hi) (by simpa using herr)
    rw [call_with_retries, h, List.range_eq_range', List.range_eq_range']
  · intro e he
    rw [call_with_retries, retryGo_succ_error_last he rfl]

/-- Witness for C4: an operation failing twice then succeeding returns the
success after sleeping `d·2⁰` and `d·2¹` over calls 0,1,2; with one permitted
attempt a failure propagates with no sleep. -/
theorem call_with_retries_spec_witness :
    call_with_retries (fun i => if i < 2 then Except.error "boom" else Except.ok (42 : Nat)) 3
        (mkRat 1 1) =
      ⟨some (.ok 42), [mkRat 1 1 * 2 ^ 0, mkRat 1 1 * 2 ^ 1], [0, 1, 2]⟩ ∧
    call_with_retries (fun _ => (Except.error "boom" : Except String Nat)) 1 (mkRat 1 1) =
      ⟨some (.error "boom"), [], [0]⟩ := by
  constructor
  · have h := (call_with_retries_spec
      (fun i => if i < 2 then Except.error "boom" else Except.ok (42 : Nat)) 3 (mkRat 1 1)
      (by decide)).1 2 42 (by decide) (by decide) (by rfl)
    simpa [List.range_succ] using h
  · exact (call_with_retries_spec (fun _ => (Except.error "boom" : Except String Nat)) 1
      (mkRat 1 1) (by decide)).2.2 "boom" rfl

/-- C5 (counterexample): the claim says the clamped confidence is always a
real number in [0,1] (0.0 on failed conversion).  A raw NaN (reachable via
`json.loads` accepting `NaN`, or the string `"nan"`) converts successfully and
passes both clamp comparisons unchanged, so the output is NaN — not in [0,1]
and not 0.0. -/
theorem to_float_clamped_nan_escape :
    toFloatClamped (PyVal.float PFloat.nan) = PFloat.nan ∧
    isUnitInterval (toFloatClamped (PyVal.float PFloat.nan)) = false ∧
    (pyFloatOf (PyVal.float PFloat.nan)).isOk = true ∧
    toFloatClamped (PyVal.str "nan".data) = PFloat.nan := by
  refine ⟨rfl, rfl, rfl, ?_⟩
  decide

/-- C5 (amended): for every raw value, a failed numeric conversion yields
exactly 0.0; a conversion to NaN propagates NaN; and in every other case the
output is a real number in the closed interval [0,1]. -/
theorem to_float_clamped_range (x : PyVal) :
    ((pyFloatOf x).isOk = false → toFloatClamped x = .rat (mkRat 0 1)) ∧
    (pyFloatOf x = .ok .nan → toFloatClamped x = .nan) ∧
    (pyFloatOf x ≠ .ok .nan → ∃ q : ℚ, toFloatClamped x = .rat q ∧ 0 ≤ q ∧ q ≤ 1) := by
  cases hf : pyFloatOf x with
  | error e =>
    refine ⟨fun _ => ?_, fun hcon => Except.noConfusion hcon, fun _ => ?_⟩
    · unfold toFloatClamped
      rw [hf]
      show clampPF (.rat (mkRat 0 1)) = .rat (mkRat 0 1)
      decide
    · unfold toFloatClamped
      rw [hf]
      show ∃ q : ℚ, clampPF (.rat (mkRat 0 1)) = .rat q ∧ 0 ≤ q ∧ q ≤ 1
      refine ⟨mkRat 0 1, by decide, ?_, ?_⟩ <;> (rw [mkRat_zero_eq]; try norm_num)

  | ok v =>
    refine ⟨fun hcon => ?_, fun hnan => ?_, fun hne => ?_⟩
    · simp [Except.isOk, Except.toBool] at hcon
    · injection hnan with hv
      unfold toFloatClamped
      rw [hf, hv]
      exact clampPF_nan
    · have hvn : v ≠ .nan := fun hv => hne (by rw [hv])
      unfold toFloatClamped
      rw [hf]
      show ∃ q : ℚ, clampPF v = .rat q ∧ 0 ≤ q ∧ q ≤ 1
      rcases clampPF_cases v with ⟨hnan, _⟩ | ⟨q, hq, h0, h1⟩
      · exact absurd hnan hvn
      · exact ⟨q, hq, h0, h1⟩

/-- Witness for C5's amended theorem at concrete inputs covering each case. -/
theorem to_float_clamped_range_witness :
    toFloatClamped PyVal.none = .rat (mkRat 0 1) ∧
    toFloatClamped (PyVal.float PFloat.nan) = PFloat.nan ∧
    (∃ q : ℚ, toFloatClamped (PyVal.int 2) = .rat q ∧ 0 ≤ q ∧ q ≤ 1) := by
  refine ⟨(to_float_clamped_range PyVal.none).1 rfl,
    (to_float_clamped_range (PyVal.float PFloat.nan)).2.1 rfl,
    (to_float_clamped_range (PyVal.int 2)).2.2 ?_⟩
  intro hcon
  simp only [pyFloatOf, Except.ok.injEq] at hcon
  exact PFloat.noConfusion hcon

set_option maxRecDepth 100000 in
/-- C6 (counterexample): the claim says the over-long trimmed rationale is
truncated to 120 characters plus an ellipsis, but the code also strips
trailing whitespace from the truncated prefix (`rationale[:120].rstrip()`):
on 119 `a`s, a space, and 10 `b`s, the output drops the space, so it differs
from the claim's predicted value. -/
theorem rationale_truncation_rstrip_counterexample :
    rationaleOf (validate_and_normalize (.dict [(kRationale,
        .str (List.replicate 119 'a' ++ [' '] ++ List.replicate 10 'b'))])) =
      List.replicate 119 'a' ++ [ellipsisChar] ∧
    rationaleOf (validate_and_normalize (.dict [(kRationale,
        .str (List.replicate 119 'a' ++ [' '] ++ List.replicate 10 'b'))])) ≠
      (pyStrip (List.replicate 119 'a' ++ [' '] ++ List.replicate 10 'b')).take 120 ++
        [ellipsisChar] := by
  constructor
  · decide
  · decide

/-- C6 (amended): for every rationale value, after string conversion and
whitespace trim, a trimmed string longer than 120 characters produces its
120-character truncation with trailing whitespace stripped plus one ellipsis
marker, and a trimmed string of at most 120 characters is output unchanged. -/
theorem rationale_truncation_rule {kvs : List (List Char × PyVal)} {rec : CanonRecord}
    (h : validate_and_normalize (.dict kvs) = .ok rec) :
    (120 < (pyStrip (rationaleStrOf (lookupD kvs kRationale (.str [])))).length →
      rec.rationale =
        pyRstrip ((pyStrip (rationaleStrOf (lookupD kvs kRationale (.str [])))).take 120) ++
          [ellipsisChar]) ∧
    ((pyStrip (rationaleStrOf (lookupD kvs kRationale (.str [])))).length ≤ 120 →
      rec.rationale = pyStrip (rationaleStrOf (lookupD kvs kRationale (.str [])))) := by
  obtain ⟨kvs2, t, hkv, htop, hrec⟩ := validate_ok_elim h
  injection hkv with hk
  subst hk
  subst hrec
  dsimp only
  rw [resolveRationale_eq]
  constructor
  · intro hlen
    rw [if_pos hlen]
  · intro hlen
    rw [if_neg (by omega)]

set_option maxRecDepth 8000 in
/-- Witness for C6's amended theorem: a short rationale is returned trimmed
and otherwise unchanged. -/
theorem rationale_truncation_rule_witness :
    rationaleOf (validate_and_normalize (.dict [(kRationale,
        .str "  short rationale  ".data)])) = "short rationale".data := by
  have h := (@rationale_truncation_rule [(kRationale, PyVal.str "  short rationale  ".data)]
    ⟨15, OTHER_TOPIC, Option.none, .rat (mkRat 0 1), "short rationale".data,
      "Unclear".data, .rat (mkRat 0 1)⟩ rfl).2 (by decide)
  refine Eq.trans ?_ (Eq.trans h ?_)
  · decide
  · decide

/-- C7: a raw result containing none of the six expected fields normalizes to
the all-defaults record: fallback topic and id 15, absent subtopic, zero
confidences, empty rationale and "Unclear" sentiment. -/
theorem normalize_all_missing_defaults {kvs : List (List Char × PyVal)}
    (h : ∀ k, k ∈ sixKeys → alookup kvs k = Option.none) :
    validate_and_normalize (.dict kvs) =
      .ok ⟨15, OTHER_TOPIC, Option.none, .rat (mkRat 0 1), [], "Unclear".data,
        .rat (mkRat 0 1)⟩ := by
  have h1 : lookupD kvs kTopic PyVal.none = PyVal.none := by
    rw [lookupD, h kTopic (by simp [sixKeys])]
    rfl
  have h2 : lookupD kvs kSubtopic PyVal.none = PyVal.none := by
    rw [lookupD, h kSubtopic (by simp [sixKeys])]
    rfl
  have h3 : lookupD kvs kConfidence (.float (.rat (mkRat 0 1))) = .float (.rat (mkRat 0 1)) := by
    rw [lookupD, h kConfidence (by simp [sixKeys])]
    rfl
  have h4 : lookupD kvs kRationale (.str []) = .str [] := by
    rw [lookupD, h kRationale (by simp [sixKeys])]
    rfl
  have h5 : lookupD kvs kNewSentiment PyVal.none = PyVal.none := by
    rw [lookupD, h kNewSentiment (by simp [sixKeys])]
    rfl
  have h6 : lookupD kvs kNSC (.float (.rat (mkRat 0 1))) = .float (.rat (mkRat 0 1)) := by
    rw [lookupD, h kNSC (by simp [sixKeys])]
    rfl
  simp only [validate_and_normalize, h1, h2, h3, h4, h5, h6]
  rfl

/-- Witness for C7 at the empty dict. -/
theorem normalize_all_missing_defaults_witness :
    validate_and_normalize (.dict []) =
      .ok ⟨15, OTHER_TOPIC, Option.none, .rat (mkRat 0 1), [], "Unclear".data,
        .rat (mkRat 0 1)⟩ :=
  normalize_all_missing_defaults (fun _ _ => rfl)

/-- C8: `trim_text` strips first (missing/None input counts as empty); a
stripped text of at most 2000 characters is returned unchanged, a longer one
is truncated to 2000 characters, right-stripped, and given one ellipsis
marker; in particular a 2001-character whitespace-free input yields its first
2000 characters plus the marker, and a 5-character whitespace-free input is
returned unchanged. -/
theorem trim_text_spec :
    (∀ t : Option (List Char), (pyStrip (t.getD [])).length ≤ MAX_CHARS_PER_POST →
      trim_text t = pyStrip (t.getD [])) ∧
    (∀ t : Option (List Char), MAX_CHARS_PER_POST < (pyStrip (t.getD [])).length →
      trim_text t = pyRstrip ((pyStrip (t.getD [])).take MAX_CHARS_PER_POST) ++ [ellipsisChar]) ∧
    trim_text Option.none = [] ∧
    (∀ s : List Char, s.length = 2001 → (∀ c ∈ s, pyIsSpace c = false) →
      trim_text (some s) = s.take 2000 ++ [ellipsisChar]) ∧
    (∀ s : List Char, s.length = 5 → (∀ c ∈ s, pyIsSpace c = false) →
      trim_text (some s) = s) := by
  have hgen1 : ∀ t : Option (List Char), (pyStrip (t.getD [])).length ≤ MAX_CHARS_PER_POST →
      trim_text t = pyStrip (t.getD []) := by
    intro t hlen
    simp only [trim_text]
    rw [if_pos hlen]
  have hgen2 : ∀ t : Option (List Char), MAX_CHARS_PER_POST < (pyStrip (t.getD [])).length →
      trim_text t = pyRstrip ((pyStrip (t.getD [])).take MAX_CHARS_PER_POST) ++
        [ellipsisChar] := by
    intro t hlen
    simp only [trim_text]
    rw [if_neg (by omega)]
  refine ⟨hgen1, hgen2, rfl, ?_, ?_⟩
  · intro s hlen hns
    have hstrip : pyStrip s = s := pyStrip_all_not_space s hns
    have h := hgen2 (some s) (by
      show MAX_CHARS_PER_POST < (pyStrip s).length
      rw [hstrip, hlen]
      decide)
    rw [h]
    show pyRstrip ((pyStrip s).take MAX_CHARS_PER_POST) ++ [ellipsisChar] =
      s.take 2000 ++ [ellipsisChar]
    rw [hstrip]
    congr 1
    apply pyRstrip_all_not_space
    intro c hc
    exact hns c (List.take_subset 2000 s hc)
  · intro s hlen hns
    have hstrip : pyStrip s = s := pyStrip_all_not_space s hns
    have h := hgen1 (some s) (by
      show (pyStrip s).length ≤ MAX_CHARS_PER_POST
      rw [hstrip, hlen]
      decide)
    rw [h]
    show pyStrip s = s
    exact hstrip

/-- Witness for C8: a 5-character whitespace-free input unchanged and a
2001-character whitespace-free input truncated with marker. -/
theorem trim_text_spec_witness :
    trim_text (some "hello".data) = "hello".data ∧
    trim_text (some (List.replicate 2001 'a')) = List.replicate 2000 'a' ++ [ellipsisChar] := by
  constructor
  · exact trim_text_spec.2.2.2.2 "hello".data (by decide) (by decide)
  · have h := trim_text_spec.2.2.2.1 (List.replicate 2001 'a')
      (List.length_replicate 2001 'a')
      (fun c hc => by rw [List.eq_of_mem_replicate hc]; decide)
    rw [h, List.take_replicate]
    rw [show min 2000 2001 = 2000 from by norm_num]

/-- C9: response extraction first tries to parse the whole text, returning the
object on success; on failure it finds the first `{` and last `}` and, when
both exist with the `}` strictly after the `{`, parses the inclusive slice
(whose outcome, success or failure, is what the caller sees); in every other
case the original parse failure propagates.  Concretely, noise around a JSON
object is tolerated and pure non-JSON text fails. -/
theorem extract_json_spec :
    (∀ t v, pyJsonLoads t = .ok v → extract_json t = .ok v) ∧
    (∀ t e i j, pyJsonLoads t = .error e → pyFind t lbraceC = some i →
      pyRfind t rbraceC = some j → i < j →
      extract_json t = pyJsonLoads ((t.take (j + 1)).drop i)) ∧
    (∀ t e, pyJsonLoads t = .error e →
      (pyFind t lbraceC = Option.none ∨ pyRfind t rbraceC = Option.none ∨
        (∃ i j, pyFind t lbraceC = some i ∧ pyRfind t rbraceC = some j ∧ j ≤ i)) →
      extract_json t = .error e) ∧
    extract_json ("noise ".data ++ [lbraceC] ++ "\"topic\":\"X\"".data ++ [rbraceC] ++
        " trailing".data) =
      .ok (.dict [("topic".data, .str "X".data)]) ∧
    extract_json "hello there".data = .error "Expecting value" := by
  refine ⟨?_, ?_, ?_, by rfl, by rfl⟩
  · intro t v h
    simp only [extract_json, h]
  · intro t e i j h hf hr hij
    simp only [extract_json, h, hf, hr]
    rw [if_neg (by omega)]
  · intro t e h hca
    simp only [extract_json, h]
    rcases hca with hc | hc | ⟨i, j, hf, hr, hji⟩
    · simp only [hc]
    · rw [hc]
      cases hfind : pyFind t lbraceC <;> rfl
    · simp only [hf, hr]
      rw [if_pos hji]

/-- Witness for C9 at a concrete whole-text parse. -/
theorem extract_json_spec_witness : extract_json " 3 ".data = .ok (.int 3) :=
  extract_json_spec.1 " 3 ".data (.int 3) rfl

/-- C10: `validate_and_normalize` is idempotent — re-normalizing the dict it
returns yields the same record. -/
theorem validate_and_normalize_idempotent {r : PyVal} {rec : CanonRecord}
    (h : validate_and_normalize r = .ok rec) :
    validate_and_normalize (recToPyVal rec) = .ok rec := by
  obtain ⟨kvs, t, hr, htop, hrec⟩ := validate_ok_elim h
  subst hrec
  have hsome := resolveTopic_isSome htop
  obtain ⟨tid, hid⟩ := Option.isSome_iff_exists.mp hsome
  apply validate_fixed
  · rw [hid]
    rfl
  · intro s hs
    exact resolveSubtopic_some hs
  · obtain ⟨v, hv⟩ := toFloatClamped_eq_clamp (lookupD kvs kConfidence (.float (.rat (mkRat 0 1))))
    rw [hv]
    exact clampPF_idem v
  · exact resolveRationale_idem _
  · exact resolveSentiment_mem _
  · by_cases hcond : t = OTHER_TOPIC ∧
        PFloat.lt (.rat (mkRat 7 10))
          (toFloatClamped (lookupD kvs kNSC (.float (.rat (mkRat 0 1))))) = true
    · rw [if_pos hcond]
      decide
    · rw [if_neg hcond]
      obtain ⟨v, hv⟩ := toFloatClamped_eq_clamp (lookupD kvs kNSC (.float (.rat (mkRat 0 1))))
      rw [hv]
      exact clampPF_idem v
  · intro ht
    by_cases hcond : t = OTHER_TOPIC ∧
        PFloat.lt (.rat (mkRat 7 10))
          (toFloatClamped (lookupD kvs kNSC (.float (.rat (mkRat 0 1))))) = true
    · rw [if_pos hcond]
      exact PFloat_lt_irrefl _
    · rw [if_neg hcond]
      cases hb : PFloat.lt (.rat (mkRat 7 10))
          (toFloatClamped (lookupD kvs kNSC (.float (.rat (mkRat 0 1))))) with
      | false => rfl
      | true => exact absurd ⟨ht, hb⟩ hcond

/-- Witness for C10 at the record produced from the empty raw result. -/
theorem validate_and_normalize_idempotent_witness :
    validate_and_normalize (recToPyVal ⟨15, OTHER_TOPIC, Option.none, .rat (mkRat 0 1), [],
        "Unclear".data, .rat (mkRat 0 1)⟩) =
      .ok ⟨15, OTHER_TOPIC, Option.none, .rat (mkRat 0 1), [], "Unclear".data,
        .rat (mkRat 0 1)⟩ :=
  @validate_and_normalize_idempotent (.dict []) _ rfl
